import Mathlib

/-!
Shallow embedding of the SQLite storage/queue engine of the dp1-feed
repository: the key-value storage class `SqliteKVStorage` (get / put /
putMultiple / delete / deleteMultiple / list) and the write queue classes
`SqliteQueue` (send / fetchPending / markProcessed / markFailed) and
`SqliteQueueProvider.processPendingMessages`.

Conventions of the embedding:
* a SQL table of a key-value namespace is a `List (String × String)`;
  the `key TEXT PRIMARY KEY` constraint means the key list is `Nodup`
  (kept as a hypothesis where a theorem needs it);
* SQLite's BINARY collation compares TEXT values bytewise; on valid
  UTF-8 this is exactly codepoint order, embedded as the linear order
  on `String.data : List Char`;
* SQLite's `LIKE` (no ESCAPE clause, default `case_sensitive_like` off)
  is embedded by `likeMatch`: `%` matches any sequence, `_` matches one
  character, and ASCII letters compare case-insensitively;
* a prepared statement that can be made to throw (the tests force this
  by dropping the table) is embedded in `Except String`, with the
  availability of the underlying table carried as a Boolean in the state;
* JavaScript's falsy-coalescing (`options?.limit || 1000`,
  `if (options?.cursor)`) is embedded explicitly (`jsOrNat`,
  `jsTruthyCursor`): `0`, `""`, `undefined` are falsy.
-/

/-! ### Key order: SQLite BINARY collation on TEXT (codepoint order) -/

/-- `a <= b` under SQLite's BINARY collation, embedded as lexicographic
order on the codepoints. -/
def keyLeP (a b : String) : Prop := a.data ≤ b.data

/-- `a < b` under SQLite's BINARY collation (the SQL comparison
`key > cursor` is `keyLtP cursor key`). -/
def keyLtP (a b : String) : Prop := a.data < b.data

instance : DecidableRel keyLeP := fun a b => inferInstanceAs (Decidable (a.data ≤ b.data))

instance : DecidableRel keyLtP := fun a b => inferInstanceAs (Decidable (a.data < b.data))

theorem string_data_inj {a b : String} (h : a.data = b.data) : a = b := by
  cases a; cases b; exact congrArg String.mk h

instance : IsTotal String keyLeP := ⟨fun a b => le_total a.data b.data⟩

instance : IsTrans String keyLeP := ⟨fun _ _ _ h h' => le_trans h h'⟩

instance : IsAntisymm String keyLeP :=
  ⟨fun _ _ h h' => string_data_inj (le_antisymm h h')⟩

/-! ### SQLite LIKE pattern matching -/

/-- One-character comparison under SQLite's default LIKE semantics:
case-insensitive for ASCII letters only (`Char.toLower` folds exactly
the ASCII range). -/
def likeCharEq (p c : Char) : Bool := p.toLower == c.toLower

/-- Does `f` accept some suffix of the string (including the string
itself and the empty suffix)? -/
def suffixAny (f : List Char → Bool) : List Char → Bool
  | [] => f []
  | c :: s' => f (c :: s') || suffixAny f s'

/-- `likeMatchL pattern s`: does the LIKE pattern match the string?
`%` matches any (possibly empty) sequence — the rest of the pattern must
match some suffix —, `_` matches exactly one character, any other
pattern character matches one character up to ASCII case folding.
No ESCAPE clause is in play in the source. -/
def likeMatchL : List Char → List Char → Bool
  | [], s => s.isEmpty
  | p :: ps, s =>
    if p = '%' then
      suffixAny (likeMatchL ps) s
    else
      match s with
      | [] => false
      | c :: s' => (if p = '_' then true else likeCharEq p c) && likeMatchL ps s'

/-- String-level LIKE. -/
def likeMatch (pattern s : String) : Bool := likeMatchL pattern.data s.data

/-! ### Key-value table primitives

`CREATE TABLE "<name>" (key TEXT PRIMARY KEY, value TEXT NOT NULL)`. -/

/-- One physical namespace table. -/
abbrev KVTable := List (String × String)

/-- `SELECT value FROM "<t>" WHERE key = ?`: the value of the row whose
key equals the argument, if any. -/
def tableGet : KVTable → String → Option String
  | [], _ => none
  | e :: rest, key => if e.1 = key then some e.2 else tableGet rest key

/-- `INSERT OR REPLACE INTO "<t>" (key, value) VALUES (?, ?)`:
removes any row with this key and inserts the new row, so the
primary-key invariant (at most one row per key) is kept. -/
def tablePut (tbl : KVTable) (key value : String) : KVTable :=
  tbl.filter (fun e => e.1 ≠ key) ++ [(key, value)]

/-- `DELETE FROM "<t>" WHERE key = ?` (no error when absent). -/
def tableDelete (tbl : KVTable) (key : String) : KVTable :=
  tbl.filter (fun e => e.1 ≠ key)

/-! ### SqliteKVStorage with an availability flag

The unit tests force the failure path of `putMultiple`/`deleteMultiple`
by dropping the backing table, after which every prepared statement
throws `no such table`. The state carries that availability bit. -/

/-- State of one `SqliteKVStorage` instance: the rows of its table and
whether the physical table is still available. -/
structure KVState where
  table : KVTable
  ok : Bool
  deriving DecidableEq, Repr

/-- The error better-sqlite3 raises once the table is gone. -/
def noSuchTableMsg : String := "no such table"

/-- `this.stmtPut.run(key, value)`: throws when the table is gone. -/
def runStmtPut (st : KVState) (key value : String) : Except String KVState :=
  if st.ok then .ok { st with table := tablePut st.table key value }
  else .error noSuchTableMsg

/-- `this.stmtDelete.run(key)`: throws when the table is gone. -/
def runStmtDelete (st : KVState) (key : String) : Except String KVState :=
  if st.ok then .ok { st with table := tableDelete st.table key }
  else .error noSuchTableMsg

/-- `async get(key)` in the raw (non-`type:'json'`) mode used by every
claim; the `type:'json'` decode branch of the source is not modelled
because no claim mentions it. (Namespaced after the source class to
avoid clashing with the monadic `get` of the Lean library.) -/
def SqliteKVStorage.get (st : KVState) (key : String) : Option String :=
  tableGet st.table key

/-- `async put(key, value)`: a single statement run, errors propagate. -/
def put (st : KVState) (key value : String) : Except String KVState :=
  runStmtPut st key value

/-- `async delete(key)`: a single statement run, errors propagate. -/
def delete (st : KVState) (key : String) : Except String KVState :=
  runStmtDelete st key

/-- `async putMultiple(entries)`:
empty input returns `[]` untouched; a single entry is delegated to plain
`put` (so a failure there propagates as an exception); two or more
entries run inside one `db.transaction` whose failure is caught,
rolled back as a unit, and reported by returning every key of the batch. -/
def putMultiple (st : KVState) (entries : List (String × String)) :
    Except String (List String × KVState) :=
  match entries with
  | [] => .ok ([], st)
  | [e] => (put st e.1 e.2).map (fun st' => ([], st'))
  | _ :: _ :: _ =>
    if st.ok then
      .ok ([], { st with table := entries.foldl (fun t e => tablePut t e.1 e.2) st.table })
    else
      .ok (entries.map Prod.fst, st)

/-- `async deleteMultiple(keys)`: same shape as `putMultiple`. -/
def deleteMultiple (st : KVState) (keys : List String) :
    Except String (List String × KVState) :=
  match keys with
  | [] => .ok ([], st)
  | [k] => (delete st k).map (fun st' => ([], st'))
  | _ :: _ :: _ =>
    if st.ok then
      .ok ([], { st with table := keys.foldl (fun t k => tableDelete t k) st.table })
    else
      .ok (keys, st)

/-! ### list: prefix scan with cursor pagination -/

/-- `KVListOptions` (all fields optional at the TypeScript interface). -/
structure KVListOptions where
  pfx : Option String := none
  limit : Option Nat := none
  cursor : Option String := none
  deriving DecidableEq, Repr

/-- `KVListResult`; the source wraps each key as `{ name: row.key }`,
kept here as the bare key string. -/
structure KVListResult where
  keys : List String
  list_complete : Bool
  cursor : Option String
  deriving DecidableEq, Repr

/-- `options?.prefix || ''` (both `undefined` and `""` give `""`). -/
def jsOrStr : Option String → String
  | none => ""
  | some s => s

/-- `options?.limit || d`: `undefined` and `0` are falsy, so both give
the default. -/
def jsOrNat (o : Option Nat) (d : Nat) : Nat :=
  match o with
  | none => d
  | some n => if n = 0 then d else n

/-- `if (options?.cursor)`: an empty-string cursor is falsy and is
treated as if no cursor had been passed. -/
def jsTruthyCursor : Option String → Option String
  | none => none
  | some c => if c = "" then none else some c

/-- `ORDER BY key ASC` under BINARY collation. -/
def sortKeys (l : List String) : List String :=
  l.insertionSort keyLeP

/-- `async list(options)`:
`SELECT key FROM "<t>" WHERE key LIKE '<prefix>%' [AND key > cursor]
ORDER BY key ASC LIMIT ?`; `list_complete` is false exactly when the
page is full, and then the cursor is the last returned key. -/
def list (tbl : KVTable) (options : KVListOptions) : KVListResult :=
  let pfx := jsOrStr options.pfx
  let limit := jsOrNat options.limit 1000
  let pat := pfx ++ "%"
  let rows :=
    match jsTruthyCursor options.cursor with
    | some c =>
      (sortKeys ((tbl.map Prod.fst).filter
        (fun k => likeMatch pat k && decide (keyLtP c k)))).take limit
    | none =>
      (sortKeys ((tbl.map Prod.fst).filter (fun k => likeMatch pat k))).take limit
  let hasMore : Bool := rows.length == limit
  { keys := rows
    list_complete := !hasMore
    cursor := if hasMore && decide (0 < rows.length) then rows.getLast? else none }

/-- The matching keys of the table for a prefix, in scan order: what one
`list` call with no cursor and a limit at least the match count returns. -/
def sortedMatching (tbl : KVTable) (p : String) : List String :=
  sortKeys ((tbl.map Prod.fst).filter (fun k => likeMatch (p ++ "%") k))

/-- The keys a cursor-carrying scan still has to deliver: all matching
keys (in scan order) strictly after the cursor, all of them when no
cursor is set. -/
def afterCursor (M : List String) : Option String → List String
  | none => M
  | some c => M.filter (fun k => decide (keyLtP c k))

/-- Repeated cursor pagination: call `list` with a fixed prefix and
limit, thread each page's cursor into the next call, stop on
`list_complete`. The second component records whether a complete page
was reached before the fuel ran out. -/
def paginate (tbl : KVTable) (p : String) (L : Nat) :
    Nat → Option String → List String × Bool
  | 0, _ => ([], false)
  | fuel + 1, cur =>
    let r := list tbl { pfx := some p, limit := some L, cursor := cur }
    if r.list_complete then (r.keys, true)
    else
      let rest := paginate tbl p L fuel r.cursor
      (r.keys ++ rest.1, rest.2)

/-! ### SqliteQueue

`CREATE TABLE write_queue (id INTEGER PRIMARY KEY AUTOINCREMENT,
queue_name TEXT NOT NULL, message TEXT NOT NULL, created_at ...,
processed INTEGER NOT NULL DEFAULT 0, attempts INTEGER NOT NULL DEFAULT 0,
max_attempts INTEGER NOT NULL DEFAULT 3, last_error TEXT)`.

`processed` is the tri-state flag: 0 pending, 1 processed, -1 dead.
`created_at` plays no role in any claim and is omitted from the row. -/

/-- One row of the `write_queue` table. -/
structure QueueRow where
  id : Nat
  queue_name : String
  message : String
  processed : Int
  attempts : Nat
  max_attempts : Nat
  last_error : Option String
  deriving DecidableEq, Repr

/-- The `write_queue` table. -/
abbrev QueueTable := List QueueRow

/-- The queue table plus the AUTOINCREMENT counter. -/
structure QueueState where
  rows : QueueTable
  nextId : Nat
  deriving DecidableEq, Repr

/-- `send`: `INSERT INTO write_queue (queue_name, message) VALUES (?, ?)`;
the other columns take their defaults. -/
def send (st : QueueState) (name messageData : String) : QueueState :=
  let row : QueueRow :=
    { id := st.nextId, queue_name := name, message := messageData,
      processed := 0, attempts := 0, max_attempts := 3, last_error := none }
  { rows := st.rows ++ [row], nextId := st.nextId + 1 }

/-- `fetchPending(limit = 10)`:
`SELECT id, message, attempts FROM write_queue WHERE processed = 0 AND
queue_name = ? ORDER BY id ASC LIMIT ?`. A SELECT does not change the
table, so the embedding returns only the row list (the source projects
each row to `{id, message, attempts}`; the full rows are kept here so
that theorems can speak about their state). -/
def fetchPending (tbl : QueueTable) (name : String) (limit : Nat := 10) :
    List QueueRow :=
  ((tbl.filter (fun r => r.processed == 0 && r.queue_name == name)).insertionSort
    (fun a b => a.id ≤ b.id)).take limit

/-- Row-level effect of `UPDATE write_queue SET processed = 1 WHERE id = ?`
(note: no `processed = 0` predicate in the source). -/
def markProcessedRow (r : QueueRow) (id : Nat) : QueueRow :=
  if r.id = id then { r with processed := 1 } else r

/-- `markProcessed(id)`. -/
def markProcessed (tbl : QueueTable) (id : Nat) : QueueTable :=
  tbl.map (markProcessedRow · id)

/-- Row-level effect of `UPDATE write_queue SET attempts = attempts + 1,
last_error = ?, processed = CASE WHEN attempts + 1 >= max_attempts THEN -1
ELSE 0 END WHERE id = ?`; every right-hand side reads the pre-update row
(SQL UPDATE semantics), and there is no `processed = 0` predicate. -/
def markFailedRow (r : QueueRow) (error : String) (id : Nat) : QueueRow :=
  if r.id = id then
    { r with attempts := r.attempts + 1,
             last_error := some error,
             processed := if r.attempts + 1 ≥ r.max_attempts then -1 else 0 }
  else r

/-- `markFailed(id, error)` (statement parameters are `(error, id)`). -/
def markFailed (tbl : QueueTable) (error : String) (id : Nat) : QueueTable :=
  tbl.map (markFailedRow · error id)

/-- `tbl.find? (·.id == id)`: the row a `WHERE id = ?` statement sees. -/
def findRow (tbl : QueueTable) (id : Nat) : Option QueueRow :=
  tbl.find? (fun r => r.id == id)

/-! ### SqliteQueueProvider.processPendingMessages

The per-entry body is wrapped in `try/catch`: any throw (JSON.parse, the
null property access, fetch, response.json()) becomes
`markFailed(row.id, error.message)` and the loop continues. The JSON
values, `JSON.parse` and the HTTP dispatch are the external inputs of
the loop and are passed as parameters. -/

/-- A parsed JSON value. -/
inductive Json where
  | null
  | bool (b : Bool)
  | num (n : Int)
  | str (s : String)
  | arr (elems : List Json)
  | obj (fields : List (String × Json))

/-- JavaScript truthiness of a JSON value. -/
def jsTruthy : Json → Bool
  | .null => false
  | .bool b => b
  | .num n => n != 0
  | .str s => s != ""
  | .arr _ => true
  | .obj _ => true

/-- V8's message for a property read on `null`. -/
def nullReadMsg (f : String) : String :=
  "Cannot read properties of null (reading '" ++ f ++ "')"

/-- Truthiness of the JavaScript expression `v.f`: a read on `null`
throws a TypeError; on an object it reads the field (absent fields are
`undefined`, which is falsy); on any other value it yields `undefined`. -/
def fieldTruthy : Json → String → Except String Bool
  | .null, f => .error (nullReadMsg f)
  | .obj fields, f =>
    .ok (match fields.lookup f with
         | some v => jsTruthy v
         | none => false)
  | _, _ => .ok false

/-- `!messageData.operation || !messageData.id || !messageData.timestamp`,
with JavaScript short-circuiting; `.ok true` means the message fails the
shape check. -/
def invalidShape (j : Json) : Except String Bool := do
  let op ← fieldTruthy j "operation"
  if !op then return true
  let i ← fieldTruthy j "id"
  if !i then return true
  let ts ← fieldTruthy j "timestamp"
  return !ts

/-- Outcome of the `fetch` to `/queues/process-message` as seen by the
loop body. -/
inductive DispatchOutcome where
  | notOk (status : Nat) (errorText : String)
  | okSuccess
  | okFailure
  | threw (message : String)
  deriving DecidableEq, Repr

/-- One iteration of the `for (const row of pending)` loop: returns the
updated table and, when an HTTP request was issued for this row, the
row's id. -/
def processRow (parseJson : String → Except String Json)
    (dispatch : String → DispatchOutcome)
    (tbl : QueueTable) (row : QueueRow) : QueueTable × Option Nat :=
  match parseJson row.message with
  | .error e => (markFailed tbl e row.id, none)
  | .ok j =>
    match invalidShape j with
    | .error e => (markFailed tbl e row.id, none)
    | .ok true => (markFailed tbl "Invalid message format" row.id, none)
    | .ok false =>
      match dispatch row.message with
      | .notOk status errorText =>
        (markFailed tbl ("HTTP " ++ toString status ++ ": " ++ errorText) row.id,
          some row.id)
      | .okSuccess => (markProcessed tbl row.id, some row.id)
      | .okFailure => (markFailed tbl "Processing returned success=false" row.id,
          some row.id)
      | .threw m => (markFailed tbl m row.id, some row.id)

/-- The provider's queue name. -/
def DP1_WRITE_QUEUE : String := "DP1_WRITE_QUEUE"

/-- One fold step of the loop: run the body on the next fetched row
against the current table, appending the dispatched id if any. -/
def processStep (parseJson : String → Except String Json)
    (dispatch : String → DispatchOutcome)
    (acc : QueueTable × List Nat) (row : QueueRow) : QueueTable × List Nat :=
  let step := processRow parseJson dispatch acc.1 row
  (step.1, acc.2 ++ step.2.toList)

/-- `processPendingMessages()`: fetch up to 10 pending rows of
`DP1_WRITE_QUEUE` once, then run the loop body on each in fetch order.
Also returns the ids for which an HTTP request was issued. -/
def processPendingMessages (parseJson : String → Except String Json)
    (dispatch : String → DispatchOutcome)
    (tbl : QueueTable) : QueueTable × List Nat :=
  (fetchPending tbl DP1_WRITE_QUEUE 10).foldl
    (processStep parseJson dispatch) (tbl, [])

/-! ### Spec-side definitions

The following definitions are written from the specification's words,
not from the source; theorems compare the embedded source against them. -/

/-- Spec side (putMultiple): the value of the last occurrence of a key
in a batch — "the most recently put value". -/
def lastValue : List (String × String) → String → Option String
  | [], _ => none
  | e :: es, k =>
    match lastValue es k with
    | some v => some v
    | none => if e.1 = k then some e.2 else none

/-- Spec side (list): "a plain starts-with test", up to the ASCII case
folding SQLite's default LIKE applies: `p` is a prefix of `s` after
lowercasing ASCII letters on both sides. -/
def ciPrefixL (p s : List Char) : Bool :=
  (p.map Char.toLower).isPrefixOf (s.map Char.toLower)

/-- Spec side (markProcessed / markFailed sequences on one entry):
the two operations a consumer can apply to an entry's id. -/
inductive QOp where
  | proc
  | fail (error : String)

/-- Effect of one operation on the entry it targets (the table-level
operations map this over the row whose id matches). -/
def rowStep (r : QueueRow) : QOp → QueueRow
  | .proc => markProcessedRow r r.id
  | .fail e => markFailedRow r e r.id

/-- Spec side (get/put/delete across namespaces): one storage operation
of a history. -/
inductive KVOp where
  | put (ns key value : String)
  | del (ns key : String)

/-- The namespaces as independent physical tables (the provider creates
one table per namespace; the same key string in two namespaces is two
records). -/
abbrev Store : Type := String → KVTable

/-- No namespace has any record. -/
def emptyStore : Store := fun _ => []

/-- Run one operation against the store: only the targeted namespace's
table changes. -/
def applyOp (st : Store) : KVOp → Store
  | .put ns k v => fun n => if n = ns then tablePut (st n) k v else st n
  | .del ns k => fun n => if n = ns then tableDelete (st n) k else st n

/-- Run a history of operations, oldest first. -/
def runOps (st : Store) (ops : List KVOp) : Store :=
  ops.foldl applyOp st

/-- Does one operation decide the value of `(ns, k)`?
`some (some v)` — a put of `v`; `some none` — a delete; `none` — the
operation does not touch this record. -/
def touch : KVOp → String → String → Option (Option String)
  | .put ns' k' v, ns, k => if ns' = ns ∧ k' = k then some (some v) else none
  | .del ns' k', ns, k => if ns' = ns ∧ k' = k then some none else none

/-- Spec side: the value decided by the most recent operation of the
history touching `(ns, k)` (later operations win). -/
def lastWrite : List KVOp → String → String → Option (Option String)
  | [], _, _ => none
  | op :: ops, ns, k =>
    match lastWrite ops ns k with
    | some r => some r
    | none => touch op ns k

/-- Spec side: "the most recent put not followed by a delete, null if
there is none". -/
def specGet (ops : List KVOp) (ns k : String) : Option String :=
  (lastWrite ops ns k).getD none

/-! ### Queue lemma kit -/

theorem markProcessedRow_id (r : QueueRow) (i : Nat) :
    (markProcessedRow r i).id = r.id := by
  unfold markProcessedRow; split <;> rfl

theorem markFailedRow_id (r : QueueRow) (e : String) (i : Nat) :
    (markFailedRow r e i).id = r.id := by
  unfold markFailedRow; split <;> rfl

theorem markProcessedRow_of_ne (r : QueueRow) {i : Nat} (h : r.id ≠ i) :
    markProcessedRow r i = r := by
  unfold markProcessedRow; simp [h]

theorem markFailedRow_of_ne (r : QueueRow) (e : String) {i : Nat} (h : r.id ≠ i) :
    markFailedRow r e i = r := by
  unfold markFailedRow; simp [h]

theorem findRow_map (f : QueueRow → QueueRow) (hf : ∀ r, (f r).id = r.id)
    (tbl : QueueTable) (i : Nat) :
    findRow (tbl.map f) i = (findRow tbl i).map f := by
  induction tbl with
  | nil => rfl
  | cons a t ih =>
    simp only [findRow, List.map_cons, List.find?_cons] at *
    rw [hf a]
    cases h : (a.id == i) <;> simp_all

theorem findRow_markProcessed (tbl : QueueTable) (i j : Nat) :
    findRow (markProcessed tbl i) j = (findRow tbl j).map (markProcessedRow · i) :=
  findRow_map _ (fun r => markProcessedRow_id r i) tbl j

theorem findRow_markFailed (tbl : QueueTable) (e : String) (i j : Nat) :
    findRow (markFailed tbl e i) j = (findRow tbl j).map (markFailedRow · e i) :=
  findRow_map _ (fun r => markFailedRow_id r e i) tbl j

theorem findRow_eq_of_mem {tbl : QueueTable} {r : QueueRow}
    (hids : (tbl.map QueueRow.id).Nodup) (hr : r ∈ tbl) :
    findRow tbl r.id = some r := by
  induction tbl with
  | nil => cases hr
  | cons a t ih =>
    simp only [List.map_cons, List.nodup_cons] at hids
    rcases List.mem_cons.mp hr with h | h
    · subst h
      simp [findRow, List.find?_cons]
    · have hne : a.id ≠ r.id := by
        intro hEq
        exact hids.1 (hEq ▸ List.mem_map_of_mem QueueRow.id h)
      simp only [findRow, List.find?_cons]
      rw [show (a.id == r.id) = false from beq_eq_false_iff_ne.mpr hne]
      exact ih hids.2 h

theorem mem_fetchPending {tbl : QueueTable} {name : String} {limit : Nat}
    {r : QueueRow} (hr : r ∈ fetchPending tbl name limit) :
    r ∈ tbl ∧ r.processed = 0 ∧ r.queue_name = name := by
  unfold fetchPending at hr
  have h1 : r ∈ (tbl.filter
      (fun r => r.processed == 0 && r.queue_name == name)).insertionSort
      (fun a b => a.id ≤ b.id) := List.mem_of_mem_take hr
  have h2 := (List.perm_insertionSort (fun a b : QueueRow => a.id ≤ b.id) _).mem_iff.mp h1
  have h3 := List.mem_filter.mp h2
  have h4 := h3.2
  simp only [Bool.and_eq_true, beq_iff_eq] at h4
  exact ⟨h3.1, h4.1, h4.2⟩

theorem mem_fetchPending_full {tbl : QueueTable} {name : String} {r : QueueRow}
    (hr : r ∈ tbl) (hp : r.processed = 0) (hn : r.queue_name = name) :
    r ∈ fetchPending tbl name tbl.length := by
  unfold fetchPending
  have h1 : r ∈ tbl.filter (fun r => r.processed == 0 && r.queue_name == name) :=
    List.mem_filter.mpr ⟨hr, by simp [hp, hn]⟩
  have h2 := (List.perm_insertionSort (fun a b : QueueRow => a.id ≤ b.id) _).mem_iff.mpr h1
  rw [List.take_of_length_le]
  · exact h2
  · calc ((tbl.filter
        (fun r => r.processed == 0 && r.queue_name == name)).insertionSort
        (fun a b => a.id ≤ b.id)).length
        = (tbl.filter (fun r => r.processed == 0 && r.queue_name == name)).length :=
          (List.perm_insertionSort _ _).length_eq
      _ ≤ tbl.length := List.length_filter_le _ _

theorem markFailed_map_id (tbl : QueueTable) (e : String) (i : Nat) :
    (markFailed tbl e i).map QueueRow.id = tbl.map QueueRow.id := by
  unfold markFailed
  rw [List.map_map]
  exact List.map_congr_left (fun r _ => markFailedRow_id r e i)

theorem markProcessed_map_id (tbl : QueueTable) (i : Nat) :
    (markProcessed tbl i).map QueueRow.id = tbl.map QueueRow.id := by
  unfold markProcessed
  rw [List.map_map]
  exact List.map_congr_left (fun r _ => markProcessedRow_id r i)

theorem rowStep_attempts_le (r : QueueRow) (op : QOp) :
    r.attempts ≤ (rowStep r op).attempts := by
  cases op with
  | proc => simp [rowStep, markProcessedRow]
  | fail e => simp [rowStep, markFailedRow]

/-- A convenient concrete queue row for witnesses and counterexamples. -/
def sampleRow (p : Int) (a : Nat) : QueueRow :=
  { id := 1, queue_name := DP1_WRITE_QUEUE, message := "m",
    processed := p, attempts := a, max_attempts := 3, last_error := none }

/-- C2, counterexample: the UPDATE statements carry no `processed = 0`
predicate, so `markFailed` moves a Processed entry (processed = 1) back
to Pending (processed = 0), and `markProcessed` moves a Dead entry
(processed = -1) to Processed — both forbidden by the claim. -/
theorem C2_counterexample :
    (markFailedRow (sampleRow 1 0) "boom" 1).processed = 0
    ∧ (markProcessedRow (sampleRow (-1) 3) 1).processed = 1 := by
  constructor <;> rfl

/-- C2 (amended): across any sequence of markProcessed/markFailed on an
entry, `attempts` never decreases; from Pending the transitions are
exactly Pending→Processed (markProcessed), Pending→Pending (markFailed,
post-increment attempts < maxAttempts) and Pending→Dead (markFailed,
post-increment attempts ≥ maxAttempts); but the updates are unguarded
by state: markProcessed sets *any* entry (even Dead) to Processed, and
markFailed re-evaluates the CASE from the attempts counter, so a
Processed entry with small attempts moves back to Pending. A Dead entry
(whose attempts already reached maxAttempts) does stay Dead under
markFailed. -/
theorem C2_transitions (r : QueueRow) (e : String) (ops : List QOp) :
    r.attempts ≤ (ops.foldl rowStep r).attempts
    ∧ (rowStep r .proc).processed = 1
    ∧ (rowStep r (.fail e)).attempts = r.attempts + 1
    ∧ (rowStep r (.fail e)).processed =
        (if r.attempts + 1 ≥ r.max_attempts then -1 else 0)
    ∧ (r.max_attempts ≤ r.attempts → (rowStep r (.fail e)).processed = -1) := by
  refine ⟨?_, ?_, ?_, ?_, ?_⟩
  · induction ops generalizing r with
    | nil => exact le_refl _
    | cons op ops ih =>
      exact le_trans (rowStep_attempts_le r op) (ih (rowStep r op))
  · simp [rowStep, markProcessedRow]
  · simp [rowStep, markFailedRow]
  · simp [rowStep, markFailedRow]
  · intro h
    have : r.attempts + 1 ≥ r.max_attempts := le_trans h (Nat.le_succ _)
    simp [rowStep, markFailedRow, this]

/-- C2, witness: a Dead entry with exhausted attempts stays Dead under a
further markFailed. -/
theorem C2_witness : (rowStep (sampleRow (-1) 3) (.fail "x")).processed = -1 :=
  (C2_transitions (sampleRow (-1) 3) "x" []).2.2.2.2 (by decide)

/-- C8: `markProcessed` is idempotent — the second call changes nothing
(each call is a total UPDATE, so neither can raise), and afterwards the
entry's id is never among the rows `fetchPending` returns. -/
theorem C8_markProcessed_idempotent (tbl : QueueTable) (i : Nat)
    (name : String) (limit : Nat) :
    markProcessed (markProcessed tbl i) i = markProcessed tbl i
    ∧ i ∉ (fetchPending (markProcessed (markProcessed tbl i) i) name limit).map
        QueueRow.id := by
  constructor
  · unfold markProcessed
    rw [List.map_map]
    refine List.map_congr_left (fun r _ => ?_)
    unfold markProcessedRow
    by_cases h : r.id = i <;> simp [h]
  · intro hmem
    rcases List.mem_map.mp hmem with ⟨q, hq, hqid⟩
    obtain ⟨hqtbl, hq0, -⟩ := mem_fetchPending hq
    unfold markProcessed at hqtbl
    rcases List.mem_map.mp hqtbl with ⟨q', _, hq'⟩
    have hid : q'.id = i := by
      have := markProcessedRow_id q' i
      rw [hq'] at this
      rw [← this, hqid]
    rw [← hq'] at hq0
    unfold markProcessedRow at hq0
    rw [if_pos hid] at hq0
    exact absurd hq0 (by simp)

/-- C3: on a Pending entry, `markFailed` adds exactly one to `attempts`,
overwrites `last_error`, and sends the entry to Dead exactly when the
post-increment count reaches maxAttempts (3); two failures leave a fresh
entry Pending and re-fetchable, a third failure makes it Dead with
attempts = 3 and permanently excluded from `fetchPending`. -/
theorem C3_markFailed_retry (tbl : QueueTable) (r r' : QueueRow)
    (name e e1 e2 e3 : String) (limit : Nat)
    (hids : (tbl.map QueueRow.id).Nodup)
    (hmem : r ∈ tbl) (hpend : r.processed = 0) (hatt : r.attempts = 0)
    (hmax : r.max_attempts = 3) (hname : r.queue_name = name)
    (hp' : r'.processed = 0) (ha' : r'.attempts < r'.max_attempts)
    (hm' : r'.max_attempts = 3) :
    (markFailedRow r' e r'.id).attempts = r'.attempts + 1
    ∧ (markFailedRow r' e r'.id).last_error = some e
    ∧ ((markFailedRow r' e r'.id).processed = -1 ↔ r'.attempts + 1 = 3)
    ∧ findRow (markFailed (markFailed tbl e1 r.id) e2 r.id) r.id =
        some { r with attempts := 2, last_error := some e2, processed := 0 }
    ∧ { r with attempts := 2, last_error := some e2, processed := 0 } ∈
        fetchPending (markFailed (markFailed tbl e1 r.id) e2 r.id) name
          (markFailed (markFailed tbl e1 r.id) e2 r.id).length
    ∧ findRow (markFailed (markFailed (markFailed tbl e1 r.id) e2 r.id) e3 r.id)
          r.id =
        some { r with attempts := 3, last_error := some e3, processed := -1 }
    ∧ r.id ∉ (fetchPending
        (markFailed (markFailed (markFailed tbl e1 r.id) e2 r.id) e3 r.id)
        name limit).map QueueRow.id := by
  have hfind2 : findRow (markFailed (markFailed tbl e1 r.id) e2 r.id) r.id =
      some { r with attempts := 2, last_error := some e2, processed := 0 } := by
    rw [findRow_markFailed, findRow_markFailed, findRow_eq_of_mem hids hmem]
    simp [markFailedRow, hatt, hmax]
  have hids3 : ((markFailed (markFailed (markFailed tbl e1 r.id) e2 r.id) e3
      r.id).map QueueRow.id).Nodup := by
    rw [markFailed_map_id, markFailed_map_id, markFailed_map_id]; exact hids
  have hfind3 : findRow
      (markFailed (markFailed (markFailed tbl e1 r.id) e2 r.id) e3 r.id) r.id =
      some { r with attempts := 3, last_error := some e3, processed := -1 } := by
    rw [findRow_markFailed, hfind2]
    simp [markFailedRow, hmax]
  refine ⟨?_, ?_, ?_, hfind2, ?_, hfind3, ?_⟩
  · simp [markFailedRow]
  · simp [markFailedRow]
  · have hred : (markFailedRow r' e r'.id).processed =
        if r'.attempts + 1 ≥ r'.max_attempts then (-1 : Int) else 0 := by
      simp [markFailedRow]
    rw [hm'] at ha'
    rw [hred, hm']
    by_cases hc : r'.attempts + 1 ≥ 3
    · have h3 : r'.attempts + 1 = 3 := le_antisymm (by omega) hc
      rw [if_pos hc]
      simp [h3]
    · rw [if_neg hc]
      constructor
      · intro h; exact absurd h (by norm_num)
      · intro h; omega
  · have h1 : markFailedRow (markFailedRow r e1 r.id) e2 r.id =
        { r with attempts := 2, last_error := some e2, processed := 0 } := by
      simp [markFailedRow, hatt, hmax]
    have hmem2 : markFailedRow (markFailedRow r e1 r.id) e2 r.id ∈
        markFailed (markFailed tbl e1 r.id) e2 r.id :=
      List.mem_map_of_mem _ (List.mem_map_of_mem _ hmem)
    rw [h1] at hmem2
    exact mem_fetchPending_full hmem2 rfl hname
  · intro hmm
    rcases List.mem_map.mp hmm with ⟨q, hq, hqid⟩
    obtain ⟨hqtbl, hq0, -⟩ := mem_fetchPending hq
    have := findRow_eq_of_mem hids3 hqtbl
    rw [hqid, hfind3] at this
    have hqeq := Option.some_injective _ this.symm
    rw [hqeq] at hq0
    exact absurd hq0 (by norm_num)

/-- C3, witness: a single fresh entry failed twice is still fetched, a
third failure dead-letters it. -/
theorem C3_witness :
    (markFailedRow (sampleRow 0 1) "w" 1).attempts = 2
    ∧ (markFailedRow (sampleRow 0 1) "w" 1).last_error = some "w"
    ∧ ((markFailedRow (sampleRow 0 1) "w" 1).processed = -1 ↔ 1 + 1 = 3)
    ∧ findRow (markFailed (markFailed [sampleRow 0 0] "a" 1) "b" 1) 1 =
        some { sampleRow 0 0 with attempts := 2, last_error := some "b", processed := 0 }
    ∧ { sampleRow 0 0 with attempts := 2, last_error := some "b", processed := 0 } ∈
        fetchPending (markFailed (markFailed [sampleRow 0 0] "a" 1) "b" 1)
          DP1_WRITE_QUEUE
          (markFailed (markFailed [sampleRow 0 0] "a" 1) "b" 1).length
    ∧ findRow (markFailed (markFailed (markFailed [sampleRow 0 0] "a" 1) "b" 1) "c" 1) 1 =
        some { sampleRow 0 0 with attempts := 3, last_error := some "c", processed := -1 }
    ∧ 1 ∉ (fetchPending
        (markFailed (markFailed (markFailed [sampleRow 0 0] "a" 1) "b" 1) "c" 1)
        DP1_WRITE_QUEUE 10).map QueueRow.id :=
  C3_markFailed_retry [sampleRow 0 0] (sampleRow 0 0) (sampleRow 0 1)
    DP1_WRITE_QUEUE "w" "a" "b" "c" 10
    (by decide) (by decide) (by decide) (by decide) (by decide) (by decide)
    (by decide) (by decide) (by decide)

/-- C6: `fetchPending` is a pure SELECT — the embedding returns only a
row list, the table is untouched by construction — and every returned
row is a Pending row (processed = 0, so never Processed = 1 nor
Dead = -1) of this queue's name, at most `limit` of them, ascending
by id. -/
theorem C6_fetchPending (tbl : QueueTable) (name : String) (limit : Nat)
    (r : QueueRow) (hr : r ∈ fetchPending tbl name limit) :
    (fetchPending tbl name limit).length ≤ limit
    ∧ r ∈ tbl ∧ r.processed = 0 ∧ r.queue_name = name
    ∧ (fetchPending tbl name limit).Pairwise (fun a b => a.id ≤ b.id) := by
  obtain ⟨h1, h2, h3⟩ := mem_fetchPending hr
  refine ⟨List.length_take_le _ _, h1, h2, h3, ?_⟩
  haveI : IsTotal QueueRow (fun a b => a.id ≤ b.id) :=
    ⟨fun a b => Nat.le_total a.id b.id⟩
  haveI : IsTrans QueueRow (fun a b => a.id ≤ b.id) :=
    ⟨fun _ _ _ h h' => le_trans h h'⟩
  have hs := List.sorted_insertionSort (fun a b : QueueRow => a.id ≤ b.id)
    (tbl.filter (fun r => r.processed == 0 && r.queue_name == name))
  exact hs.sublist (List.take_sublist _ _)

/-- C6, witness. -/
theorem C6_witness :
    (fetchPending [sampleRow 0 0] DP1_WRITE_QUEUE 10).length ≤ 10
    ∧ sampleRow 0 0 ∈ [sampleRow 0 0] ∧ (sampleRow 0 0).processed = 0
    ∧ (sampleRow 0 0).queue_name = DP1_WRITE_QUEUE
    ∧ (fetchPending [sampleRow 0 0] DP1_WRITE_QUEUE 10).Pairwise
        (fun a b => a.id ≤ b.id) :=
  C6_fetchPending [sampleRow 0 0] DP1_WRITE_QUEUE 10 (sampleRow 0 0) (by decide)

/-! ### KV table lemma kit -/

theorem tableGet_append (l1 l2 : KVTable) (k : String) :
    tableGet (l1 ++ l2) k = (tableGet l1 k).or (tableGet l2 k) := by
  induction l1 with
  | nil =>
    show tableGet l2 k = Option.or none (tableGet l2 k)
    rfl
  | cons a t ih =>
    show (if a.1 = k then some a.2 else tableGet (t ++ l2) k) =
      Option.or (if a.1 = k then some a.2 else tableGet t k) (tableGet l2 k)
    by_cases ha : a.1 = k
    · rw [if_pos ha, if_pos ha]; rfl
    · rw [if_neg ha, if_neg ha, ih]

theorem tableGet_filter_ne (t : KVTable) (k k' : String) (h : k ≠ k') :
    tableGet (t.filter (fun e => e.1 ≠ k')) k = tableGet t k := by
  induction t with
  | nil => rfl
  | cons a t ih =>
    rw [List.filter_cons]
    by_cases ha : a.1 = k'
    · rw [if_neg (by simp [ha])]
      rw [ih]
      show tableGet t k = (if a.1 = k then some a.2 else tableGet t k)
      rw [if_neg (fun hh => h ((hh.symm).trans ha))]
    · rw [if_pos (by simp [ha])]
      show (if a.1 = k then some a.2 else tableGet (t.filter _) k) =
        (if a.1 = k then some a.2 else tableGet t k)
      by_cases hk : a.1 = k
      · rw [if_pos hk, if_pos hk]
      · rw [if_neg hk, if_neg hk, ih]

theorem tableGet_filter_self (t : KVTable) (k : String) :
    tableGet (t.filter (fun e => e.1 ≠ k)) k = none := by
  induction t with
  | nil => rfl
  | cons a t ih =>
    rw [List.filter_cons]
    by_cases ha : a.1 = k
    · rw [if_neg (by simp [ha])]; exact ih
    · rw [if_pos (by simp [ha])]
      show (if a.1 = k then some a.2 else tableGet (t.filter _) k) = none
      rw [if_neg ha]; exact ih

theorem tableGet_put (t : KVTable) (k' v' k : String) :
    tableGet (tablePut t k' v') k = if k = k' then some v' else tableGet t k := by
  unfold tablePut
  rw [tableGet_append]
  by_cases h : k = k'
  · subst h
    rw [tableGet_filter_self]
    show Option.or none (if k = k then some v' else tableGet [] k) =
      if k = k then some v' else tableGet t k
    rw [if_pos rfl, if_pos rfl]
    rfl
  · rw [tableGet_filter_ne t k k' h, if_neg h]
    show Option.or (tableGet t k) (if k' = k then some v' else none) = tableGet t k
    rw [if_neg (Ne.symm h)]
    cases tableGet t k <;> rfl

theorem tableGet_delete (t : KVTable) (k' k : String) :
    tableGet (tableDelete t k') k = if k = k' then none else tableGet t k := by
  unfold tableDelete
  by_cases h : k = k'
  · subst h
    rw [tableGet_filter_self, if_pos rfl]
  · rw [tableGet_filter_ne t k k' h, if_neg h]

theorem lastWrite_cons (op : KVOp) (ops : List KVOp) (ns k : String) :
    lastWrite (op :: ops) ns k = (lastWrite ops ns k).or (touch op ns k) := by
  show (match lastWrite ops ns k with
        | some r => some r
        | none => touch op ns k) = _
  cases lastWrite ops ns k <;> rfl

theorem lastWrite_snoc (ops : List KVOp) (op : KVOp) (ns k : String) :
    lastWrite (ops ++ [op]) ns k = (touch op ns k).or (lastWrite ops ns k) := by
  induction ops with
  | nil =>
    rw [List.nil_append, lastWrite_cons]
    cases touch op ns k <;> rfl
  | cons x ops ih =>
    rw [List.cons_append, lastWrite_cons, lastWrite_cons, ih]
    cases touch op ns k <;> cases lastWrite ops ns k <;> rfl

/-- C7: starting from empty storage, after any history of put/delete
operations across any namespaces, `get(k)` on a namespace returns the
value of the most recent put to that key in that namespace not followed
by a delete of it (and null when there is none); puts and deletes to
other keys, or to the same key string in other namespaces, never
matter — namespaces are physically separate tables. -/
theorem C7_get_put_delete (ops : List KVOp) (ns k : String) :
    tableGet (runOps emptyStore ops ns) k = specGet ops ns k := by
  induction ops using List.reverseRecOn with
  | nil => rfl
  | append_singleton ops op ih =>
    have hrun : runOps emptyStore (ops ++ [op]) = applyOp (runOps emptyStore ops) op := by
      simp [runOps, List.foldl_append]
    rw [hrun]
    unfold specGet
    rw [lastWrite_snoc]
    cases op with
    | put ns' k' v =>
      show tableGet (if ns = ns' then tablePut (runOps emptyStore ops ns) k' v
        else runOps emptyStore ops ns) k = _
      simp only [touch]
      by_cases hns : ns = ns'
      · rw [if_pos hns, tableGet_put]
        by_cases hk : k = k'
        · rw [if_pos hk, if_pos ⟨hns.symm, hk.symm⟩]
          rfl
        · rw [if_neg hk, if_neg (fun hh => hk hh.2.symm)]
          exact ih
      · rw [if_neg hns, if_neg (fun hh => hns hh.1.symm)]
        exact ih
    | del ns' k' =>
      show tableGet (if ns = ns' then tableDelete (runOps emptyStore ops ns) k'
        else runOps emptyStore ops ns) k = _
      simp only [touch]
      by_cases hns : ns = ns'
      · rw [if_pos hns, tableGet_delete]
        by_cases hk : k = k'
        · rw [if_pos hk, if_pos ⟨hns.symm, hk.symm⟩]
          rfl
        · rw [if_neg hk, if_neg (fun hh => hk hh.2.symm)]
          exact ih
      · rw [if_neg hns, if_neg (fun hh => hns hh.1.symm)]
        exact ih

theorem tableGet_foldl_put (es : List (String × String)) (t0 : KVTable)
    (k : String) :
    tableGet (es.foldl (fun t e => tablePut t e.1 e.2) t0) k =
      (lastValue es k).or (tableGet t0 k) := by
  induction es generalizing t0 with
  | nil => rfl
  | cons e es ih =>
    rw [List.foldl_cons, ih, tableGet_put]
    show _ = (lastValue (e :: es) k).or (tableGet t0 k)
    have hcons : lastValue (e :: es) k =
        (match lastValue es k with
         | some v => some v
         | none => if e.1 = k then some e.2 else none) := rfl
    cases hv : lastValue es k with
    | some v => rw [hcons, hv]; rfl
    | none =>
      rw [hcons, hv]
      by_cases hk : k = e.1
      · rw [if_pos hk, if_pos hk.symm]; rfl
      · rw [if_neg hk, if_neg (fun hh => hk hh.symm)]

theorem tableGet_foldl_delete (ks : List String) (t0 : KVTable) (k : String) :
    tableGet (ks.foldl (fun t k' => tableDelete t k') t0) k =
      if k ∈ ks then none else tableGet t0 k := by
  induction ks generalizing t0 with
  | nil => rw [if_neg (List.not_mem_nil k)]; rfl
  | cons k' ks ih =>
    rw [List.foldl_cons, ih, tableGet_delete]
    by_cases hks : k ∈ ks
    · rw [if_pos hks, if_pos (List.mem_cons_of_mem _ hks)]
    · rw [if_neg hks]
      by_cases hk : k = k'
      · rw [if_pos hk, if_pos (by rw [hk]; exact List.mem_cons_self _ _)]
      · rw [if_neg hk, if_neg (by simp [hk, hks])]

theorem lastValue_mem {es : List (String × String)} {k : String}
    (hk : k ∈ es.map Prod.fst) : ∃ v, lastValue es k = some v := by
  induction es with
  | nil => cases hk
  | cons e es ih =>
    show ∃ v, (match lastValue es k with
         | some v => some v
         | none => if e.1 = k then some e.2 else none) = some v
    cases hv : lastValue es k with
    | some v => exact ⟨v, rfl⟩
    | none =>
      rcases List.mem_map.mp hk with ⟨a, ha, hak⟩
      rcases List.mem_cons.mp ha with h | h
      · subst h
        refine ⟨a.2, ?_⟩
        show (if a.1 = k then some a.2 else none) = some a.2
        rw [if_pos hak]
      · rcases ih (hak ▸ List.mem_map_of_mem Prod.fst h) with ⟨v, hv'⟩
        rw [hv] at hv'
        cases hv'

/-- C1, counterexample: a single-entry batch is delegated to plain
`put`, which is outside the try/catch — when the engine fails (table
dropped), `putMultiple([("k","v")])` propagates the exception instead of
returning `["k"]` as the claim requires for every non-empty batch. -/
theorem C1_counterexample :
    putMultiple { table := [], ok := false } [("k", "v")] =
      .error noSuchTableMsg
    ∧ putMultiple { table := [], ok := false } [("k", "v")] ≠
      .ok ([("k", "v")].map Prod.fst, { table := [], ok := false }) :=
  ⟨rfl, by intro h; cases h⟩

/-- C1 (amended): for batches of two or more entries, `putMultiple` is
all-or-nothing: on success it returns the empty failed-key list and
every key of the batch reads back (via `get`) the value of its last
occurrence in the batch; on engine failure it returns exactly the keys
of the batch and the state — hence every `get` — is unchanged. A
single-entry batch behaves the same on success, but on engine failure
it propagates the exception (no failed-key list). `deleteMultiple`
satisfies the same contract with deleted keys reading back null. -/
theorem C1_batch_atomicity (st : KVState) (es : List (String × String))
    (ks : List String) (k dk : String)
    (hk : k ∈ es.map Prod.fst) (hdk : dk ∈ ks) :
    (st.ok = true →
      (putMultiple st es).map (fun r => (r.1, SqliteKVStorage.get r.2 k)) =
        .ok ([], lastValue es k))
    ∧ (st.ok = false → 2 ≤ es.length →
        putMultiple st es = .ok (es.map Prod.fst, st))
    ∧ (st.ok = false → es.length = 1 →
        putMultiple st es = .error noSuchTableMsg)
    ∧ (st.ok = true →
        (deleteMultiple st ks).map (fun r => (r.1, SqliteKVStorage.get r.2 dk)) =
          .ok ([], none))
    ∧ (st.ok = false → 2 ≤ ks.length →
        deleteMultiple st ks = .ok (ks, st))
    ∧ (st.ok = false → ks.length = 1 →
        deleteMultiple st ks = .error noSuchTableMsg) := by
  refine ⟨?_, ?_, ?_, ?_, ?_, ?_⟩
  · intro hok
    match es, hk with
    | [e], hk =>
      have hke : k = e.1 := by simpa using hk
      simp [putMultiple, put, runStmtPut, hok, Except.map,
        SqliteKVStorage.get, tableGet_put, hke, lastValue]
    | e1 :: e2 :: rest, hk =>
      rcases lastValue_mem hk with ⟨v, hv⟩
      simp only [putMultiple, hok, if_true, Except.map,
        SqliteKVStorage.get, tableGet_foldl_put, hv, Option.or]
  · intro hko h2
    match es, h2 with
    | e1 :: e2 :: rest, _ => simp [putMultiple, hko]
  · intro hko h1
    match es, h1 with
    | [e], _ => simp [putMultiple, put, runStmtPut, hko, Except.map]
  · intro hok
    match ks, hdk with
    | [k0], hdk =>
      have hdk0 : dk = k0 := by simpa using hdk
      simp [deleteMultiple, delete, runStmtDelete, hok, Except.map,
        SqliteKVStorage.get, tableGet_delete, hdk0]
    | k1 :: k2 :: rest, hdk =>
      simp only [deleteMultiple, hok, if_true, Except.map,
        SqliteKVStorage.get, tableGet_foldl_delete, if_pos hdk]
  · intro hko h2
    match ks, h2 with
    | k1 :: k2 :: rest, _ => simp [deleteMultiple, hko]
  · intro hko h1
    match ks, h1 with
    | [k0], _ => simp [deleteMultiple, delete, runStmtDelete, hko, Except.map]

/-- C1, witness: a two-entry batch against a live table. -/
theorem C1_witness :
    (({ table := [], ok := true } : KVState).ok = true →
      (putMultiple { table := [], ok := true } [("k", "v"), ("j", "w")]).map
          (fun r => (r.1, SqliteKVStorage.get r.2 "j")) =
        .ok ([], lastValue [("k", "v"), ("j", "w")] "j"))
    ∧ (({ table := [], ok := true } : KVState).ok = false →
        2 ≤ ([("k", "v"), ("j", "w")] : List (String × String)).length →
        putMultiple { table := [], ok := true } [("k", "v"), ("j", "w")] =
          .ok ([("k", "v"), ("j", "w")].map Prod.fst,
            { table := [], ok := true }))
    ∧ (({ table := [], ok := true } : KVState).ok = false →
        ([("k", "v"), ("j", "w")] : List (String × String)).length = 1 →
        putMultiple { table := [], ok := true } [("k", "v"), ("j", "w")] =
          .error noSuchTableMsg)
    ∧ (({ table := [], ok := true } : KVState).ok = true →
        (deleteMultiple { table := [], ok := true } ["k", "j"]).map
            (fun r => (r.1, SqliteKVStorage.get r.2 "k")) =
          .ok ([], none))
    ∧ (({ table := [], ok := true } : KVState).ok = false →
        2 ≤ (["k", "j"] : List String).length →
        deleteMultiple { table := [], ok := true } ["k", "j"] =
          .ok (["k", "j"], { table := [], ok := true }))
    ∧ (({ table := [], ok := true } : KVState).ok = false →
        (["k", "j"] : List String).length = 1 →
        deleteMultiple { table := [], ok := true } ["k", "j"] =
          .error noSuchTableMsg) :=
  C1_batch_atomicity { table := [], ok := true } [("k", "v"), ("j", "w")]
    ["k", "j"] "j" "k" (by decide) (by decide)

theorem findRow_id {tbl : QueueTable} {i : Nat} {r : QueueRow}
    (h : findRow tbl i = some r) : r.id = i := by
  have := List.find?_some h
  simpa using this

theorem findRow_markFailed_ne (tbl : QueueTable) (e : String) {x i : Nat}
    (hne : x ≠ i) : findRow (markFailed tbl e x) i = findRow tbl i := by
  rw [findRow_markFailed]
  cases hf : findRow tbl i with
  | none => rfl
  | some r =>
    have hid : r.id = i := findRow_id hf
    rw [Option.map_some']
    rw [markFailedRow_of_ne r e (by rw [hid]; exact fun hh => hne hh.symm)]

theorem findRow_markProcessed_ne (tbl : QueueTable) {x i : Nat}
    (hne : x ≠ i) : findRow (markProcessed tbl x) i = findRow tbl i := by
  rw [findRow_markProcessed]
  cases hf : findRow tbl i with
  | none => rfl
  | some r =>
    have hid : r.id = i := findRow_id hf
    rw [Option.map_some']
    rw [markProcessedRow_of_ne r (by rw [hid]; exact fun hh => hne hh.symm)]

theorem processRow_preserves (parseJson : String → Except String Json)
    (dispatch : String → DispatchOutcome) (tbl : QueueTable) (x : QueueRow)
    {i : Nat} (hne : x.id ≠ i) :
    findRow (processRow parseJson dispatch tbl x).1 i = findRow tbl i
    ∧ ∀ j ∈ (processRow parseJson dispatch tbl x).2, j = x.id := by
  cases hp : parseJson x.message with
  | error e =>
    simp only [processRow, hp]
    exact ⟨findRow_markFailed_ne tbl e hne, by simp⟩
  | ok j =>
    cases hs : invalidShape j with
    | error e =>
      simp only [processRow, hp, hs]
      exact ⟨findRow_markFailed_ne tbl e hne, by simp⟩
    | ok b =>
      cases b with
      | true =>
        simp only [processRow, hp, hs]
        exact ⟨findRow_markFailed_ne tbl _ hne, by simp⟩
      | false =>
        cases hd : dispatch x.message with
        | notOk status errorText =>
          simp only [processRow, hp, hs, hd]
          exact ⟨findRow_markFailed_ne tbl _ hne, by simp⟩
        | okSuccess =>
          simp only [processRow, hp, hs, hd]
          exact ⟨findRow_markProcessed_ne tbl hne, by simp⟩
        | okFailure =>
          simp only [processRow, hp, hs, hd]
          exact ⟨findRow_markFailed_ne tbl _ hne, by simp⟩
        | threw m =>
          simp only [processRow, hp, hs, hd]
          exact ⟨findRow_markFailed_ne tbl m hne, by simp⟩

theorem processList_preserves (parseJson : String → Except String Json)
    (dispatch : String → DispatchOutcome) (rows : List QueueRow) {i : Nat}
    (hni : ∀ x ∈ rows, x.id ≠ i) :
    ∀ (acc : QueueTable) (ds : List Nat),
    findRow (rows.foldl (processStep parseJson dispatch) (acc, ds)).1 i =
      findRow acc i
    ∧ (i ∉ ds →
        i ∉ (rows.foldl (processStep parseJson dispatch) (acc, ds)).2) := by
  induction rows with
  | nil => exact fun acc ds => ⟨rfl, fun h => h⟩
  | cons x rows ih =>
    intro acc ds
    have hx : x.id ≠ i := hni x (List.mem_cons_self x rows)
    have hrest : ∀ y ∈ rows, y.id ≠ i :=
      fun y hy => hni y (List.mem_cons_of_mem x hy)
    obtain ⟨hp1, hp2⟩ := processRow_preserves parseJson dispatch acc x hx
    rw [List.foldl_cons]
    obtain ⟨ih1, ih2⟩ := ih hrest (processRow parseJson dispatch acc x).1
      (ds ++ (processRow parseJson dispatch acc x).2.toList)
    constructor
    · rw [show processStep parseJson dispatch (acc, ds) x =
        ((processRow parseJson dispatch acc x).1,
          ds ++ (processRow parseJson dispatch acc x).2.toList) from rfl]
      rw [ih1, hp1]
    · intro hds
      rw [show processStep parseJson dispatch (acc, ds) x =
        ((processRow parseJson dispatch acc x).1,
          ds ++ (processRow parseJson dispatch acc x).2.toList) from rfl]
      refine ih2 ?_
      intro hmem
      rcases List.mem_append.mp hmem with h | h
      · exact hds h
      · have := hp2 i (by
          cases hopt : (processRow parseJson dispatch acc x).2 with
          | none => rw [hopt] at h; cases h
          | some v =>
            rw [hopt] at h
            have hiv : i = v := by simpa using h
            subst hiv
            exact Option.mem_def.mpr rfl)
        exact hx this.symm

theorem processList_target (parseJson : String → Except String Json)
    (dispatch : String → DispatchOutcome) (rows : List QueueRow)
    (r : QueueRow) (j : Json)
    (hparse : parseJson r.message = .ok j)
    (hshape : invalidShape j = .ok true) :
    ∀ (_ : r ∈ rows) (_ : (rows.map QueueRow.id).Nodup)
      (acc : QueueTable) (ds : List Nat),
      findRow acc r.id = some r → r.id ∉ ds →
      findRow (rows.foldl (processStep parseJson dispatch) (acc, ds)).1 r.id =
        some (markFailedRow r "Invalid message format" r.id)
      ∧ r.id ∉ (rows.foldl (processStep parseJson dispatch) (acc, ds)).2 := by
  induction rows with
  | nil => intro hr; cases hr
  | cons x rows ih =>
    intro hr hnodup acc ds hacc hds
    rw [List.foldl_cons]
    simp only [List.map_cons, List.nodup_cons] at hnodup
    obtain ⟨hxid, hnd⟩ := hnodup
    rcases List.mem_cons.mp hr with hrx | hrmem
    · subst hrx
      have hpr : processRow parseJson dispatch acc r =
          (markFailed acc "Invalid message format" r.id, none) := by
        simp only [processRow, hparse, hshape]
      have hstep : processStep parseJson dispatch (acc, ds) r =
          (markFailed acc "Invalid message format" r.id, ds) := by
        simp [processStep, hpr]
      rw [hstep]
      have hni : ∀ y ∈ rows, y.id ≠ r.id := by
        intro y hy hyid
        exact hxid (hyid ▸ List.mem_map_of_mem QueueRow.id hy)
      obtain ⟨h1, h2⟩ := processList_preserves parseJson dispatch rows hni
        (markFailed acc "Invalid message format" r.id) ds
      refine ⟨?_, h2 hds⟩
      rw [h1, findRow_markFailed, hacc, Option.map_some']
    · have hxr : x.id ≠ r.id := by
        intro hh
        exact hxid (hh ▸ List.mem_map_of_mem QueueRow.id hrmem)
      obtain ⟨hp1, hp2⟩ := processRow_preserves parseJson dispatch acc x hxr
      have hacc' : findRow (processRow parseJson dispatch acc x).1 r.id =
          some r := by rw [hp1]; exact hacc
      have hds' : r.id ∉ ds ++ (processRow parseJson dispatch acc x).2.toList := by
        intro hmem
        rcases List.mem_append.mp hmem with h | h
        · exact hds h
        · cases hopt : (processRow parseJson dispatch acc x).2 with
          | none => rw [hopt] at h; cases h
          | some v =>
            rw [hopt] at h
            have hiv : r.id = v := by simpa using h
            have hvx := hp2 v (Option.mem_def.mpr hopt)
            exact hxr (by rw [← hvx, ← hiv])
      exact ih hrmem hnd (processRow parseJson dispatch acc x).1
        (ds ++ (processRow parseJson dispatch acc x).2.toList) hacc' hds'

/-- C9 (amended): during one processing tick, every fetched entry whose
message parses to a value other than `null` and fails the required-shape
truthiness check (`operation`, `id`, `timestamp`) is marked failed with
reason exactly "Invalid message format" and no dispatch request is made
for it; the failure goes through the regular attempts counter — the row
keeps attempts + 1 and dead-letters only when the incremented count
reaches maxAttempts, it is never removed. (A message that parses to
`null` is excluded: the property read throws and the entry is instead
failed with the TypeError's message.) -/
theorem C9_invalid_format (parseJson : String → Except String Json)
    (dispatch : String → DispatchOutcome) (tbl : QueueTable)
    (r : QueueRow) (j : Json)
    (hids : (tbl.map QueueRow.id).Nodup)
    (hr : r ∈ fetchPending tbl DP1_WRITE_QUEUE 10)
    (hparse : parseJson r.message = .ok j)
    (hshape : invalidShape j = .ok true) :
    findRow (processPendingMessages parseJson dispatch tbl).1 r.id =
      some { r with
              attempts := r.attempts + 1,
              last_error := some "Invalid message format",
              processed := if r.attempts + 1 ≥ r.max_attempts then -1 else 0 }
    ∧ r.id ∉ (processPendingMessages parseJson dispatch tbl).2 := by
  have hpend_nodup :
      ((fetchPending tbl DP1_WRITE_QUEUE 10).map QueueRow.id).Nodup := by
    unfold fetchPending
    have h1 := ((List.filter_sublist
      (p := fun r : QueueRow =>
        r.processed == 0 && r.queue_name == DP1_WRITE_QUEUE) tbl).map
      QueueRow.id).nodup hids
    have hperm := (List.perm_insertionSort (fun a b : QueueRow => a.id ≤ b.id)
      (tbl.filter (fun r =>
        r.processed == 0 && r.queue_name == DP1_WRITE_QUEUE))).map QueueRow.id
    have h2 := hperm.symm.nodup h1
    exact ((List.take_sublist 10 _).map QueueRow.id).nodup h2
  have hmem := mem_fetchPending hr
  have hfind : findRow tbl r.id = some r := findRow_eq_of_mem hids hmem.1
  obtain ⟨h1, h2⟩ := processList_target parseJson dispatch
    (fetchPending tbl DP1_WRITE_QUEUE 10) r j hparse hshape hr hpend_nodup
    tbl [] hfind (by simp)
  unfold processPendingMessages
  refine ⟨?_, h2⟩
  rw [h1]
  congr 1
  simp [markFailedRow]

/-- C9, witness: a fresh entry whose message parses to an object missing
all required fields. -/
theorem C9_witness :
    findRow (processPendingMessages
        (fun _ => .ok (Json.obj [("incomplete", Json.bool true)]))
        (fun _ => .okSuccess) [sampleRow 0 0]).1 (sampleRow 0 0).id =
      some { sampleRow 0 0 with
              attempts := (sampleRow 0 0).attempts + 1,
              last_error := some "Invalid message format",
              processed := if (sampleRow 0 0).attempts + 1 ≥
                  (sampleRow 0 0).max_attempts then -1 else 0 }
    ∧ (sampleRow 0 0).id ∉ (processPendingMessages
        (fun _ => .ok (Json.obj [("incomplete", Json.bool true)]))
        (fun _ => .okSuccess) [sampleRow 0 0]).2 :=
  C9_invalid_format (fun _ => .ok (Json.obj [("incomplete", Json.bool true)]))
    (fun _ => .okSuccess) [sampleRow 0 0] (sampleRow 0 0)
    (Json.obj [("incomplete", Json.bool true)]) (by decide) (by decide) rfl rfl

/-- C9, counterexample to the claim as stated: the message "m" here
parses to JSON `null`, which lacks every required shape marker, yet the
entry is not marked "Invalid message format" — the JavaScript property
read `messageData.operation` throws a TypeError on `null`, the
try/catch turns it into `markFailed` with the TypeError's message. -/
theorem C9_counterexample :
    (processPendingMessages (fun _ => .ok Json.null) (fun _ => .okSuccess)
        [sampleRow 0 0]).1 =
      [{ sampleRow 0 0 with
          attempts := 1,
          last_error := some (nullReadMsg "operation"),
          processed := 0 }]
    ∧ nullReadMsg "operation" ≠ "Invalid message format" :=
  ⟨rfl, by decide⟩

theorem likeMatchL_percent (s : List Char) : likeMatchL ['%'] s = true := by
  have hempty : ∀ t : List Char, suffixAny (likeMatchL []) t = true := by
    intro t
    induction t with
    | nil => rfl
    | cons c t ih => simp [suffixAny, ih]
  show (if '%' = '%' then suffixAny (likeMatchL []) s else _) = true
  rw [if_pos rfl]
  exact hempty s

/-- C10: a falsy `limit` (explicit 0 or absent) falls back to the
default 1000 — `list({limit: 0})` is the very same call as
`list({})`, a page of up to 1000 keys, never an empty page — and the
empty-string prefix (explicit or absent) builds the pattern `%`, which
matches every key. -/
theorem C10_falsy_limit (tbl : KVTable) (p c : Option String) (k : String) :
    list tbl { pfx := p, limit := some 0, cursor := c } =
      list tbl { pfx := p, limit := none, cursor := c }
    ∧ jsOrNat (some 0) 1000 = 1000
    ∧ likeMatch ("" ++ "%") k = true
    ∧ (list tbl { pfx := some "", limit := some 0, cursor := none }).keys =
        (sortKeys (tbl.map Prod.fst)).take 1000
    ∧ (list tbl { pfx := some "", limit := some 0, cursor := none
        }).keys.length ≤ 1000 := by
  have hlike : ∀ s : String, likeMatch ("" ++ "%") s = true := by
    intro s
    exact likeMatchL_percent s.data
  have hkeys : (list tbl { pfx := some "", limit := some 0, cursor := none
      }).keys = (sortKeys (tbl.map Prod.fst)).take 1000 := by
    show ((sortKeys ((tbl.map Prod.fst).filter
      (fun k => likeMatch ("" ++ "%") k))).take (jsOrNat (some 0) 1000)) = _
    rw [List.filter_eq_self.mpr (fun a _ => hlike a)]
    rfl
  refine ⟨rfl, rfl, hlike k, hkeys, ?_⟩
  rw [hkeys]
  exact List.length_take_le _ _

/-! ### Sort lemma kit for list -/

theorem sortKeys_sorted (l : List String) : (sortKeys l).Pairwise keyLeP :=
  List.sorted_insertionSort keyLeP l

theorem sortKeys_perm (l : List String) : (sortKeys l).Perm l :=
  List.perm_insertionSort keyLeP l

theorem sortKeys_nodup (l : List String) (h : l.Nodup) : (sortKeys l).Nodup :=
  (sortKeys_perm l).symm.nodup h

theorem sortKeys_strict (l : List String) (h : l.Nodup) :
    (sortKeys l).Pairwise keyLtP := by
  have hs := sortKeys_sorted l
  have hn : (sortKeys l).Nodup := sortKeys_nodup l h
  exact (hs.and hn).imp
    (fun hab => lt_of_le_of_ne hab.1 (fun hd => hab.2 (string_data_inj hd)))

theorem likeMatchL_no_meta (p : List Char) (hp : '%' ∉ p ∧ '_' ∉ p) :
    ∀ s : List Char, likeMatchL (p ++ ['%']) s = ciPrefixL p s := by
  induction p with
  | nil =>
    intro s
    rw [List.nil_append, likeMatchL_percent]
    cases s with
    | nil => rfl
    | cons c s' => rfl
  | cons a p ih =>
    have ha1 : a ≠ '%' := fun h => hp.1 (h ▸ List.mem_cons_self a p)
    have ha2 : a ≠ '_' := fun h => hp.2 (h ▸ List.mem_cons_self a p)
    have hp' : '%' ∉ p ∧ '_' ∉ p :=
      ⟨fun h => hp.1 (List.mem_cons_of_mem a h),
       fun h => hp.2 (List.mem_cons_of_mem a h)⟩
    intro s
    cases s with
    | nil =>
      show (if a = '%' then _ else _) = ciPrefixL (a :: p) []
      rw [if_neg ha1]
      rfl
    | cons c s' =>
      show (if a = '%' then _ else _) = ciPrefixL (a :: p) (c :: s')
      rw [if_neg ha1]
      show ((if a = '_' then true else likeCharEq a c) &&
        likeMatchL (p ++ ['%']) s') = _
      rw [if_neg ha2, ih hp' s']
      rfl

theorem list_keys_length (tbl : KVTable) (o : KVListOptions) :
    (list tbl o).keys.length ≤ jsOrNat o.limit 1000 := by
  cases hc : jsTruthyCursor o.cursor <;>
    simp only [list, hc] <;>
    exact List.length_take_le _ _

/-- C4, counterexample: the prefix is passed to SQL `LIKE` unescaped, so
a `_` in the prefix is a single-character wildcard: with only the key
"ab" stored, `list({prefix: "a_"})` returns "ab" although "a_" is not a
literal prefix of "ab". -/
theorem C4_counterexample :
    (list [("ab", "1")] { pfx := some "a_" }).keys = ["ab"]
    ∧ "a_".data.isPrefixOf "ab".data = false := by
  exact ⟨rfl, by decide⟩

/-- C4 (amended): `list` with prefix `p` returns exactly the stored keys
matching the SQL LIKE pattern `p%` (where `%` and `_` inside `p` act as
wildcards and ASCII letters compare case-insensitively), sorted
ascending by the BINARY collation, capped at the limit (default 1000);
for a prefix free of `%` and `_` the match is exactly "starts with p up
to ASCII case folding". -/
theorem C4_list_prefix (tbl : KVTable) (p p' s k : String) (o : KVListOptions)
    (hnodup : (tbl.map Prod.fst).Nodup)
    (hlen : (sortedMatching tbl p).length ≤ 1000)
    (hmeta : '%' ∉ p'.data ∧ '_' ∉ p'.data) :
    (list tbl { pfx := some p }).keys = sortedMatching tbl p
    ∧ (sortedMatching tbl p).Pairwise keyLeP
    ∧ (sortedMatching tbl p).Nodup
    ∧ (k ∈ sortedMatching tbl p ↔
        k ∈ tbl.map Prod.fst ∧ likeMatch (p ++ "%") k = true)
    ∧ likeMatch (p' ++ "%") s = ciPrefixL p'.data s.data
    ∧ (list tbl o).keys.length ≤ jsOrNat o.limit 1000 := by
  refine ⟨?_, sortKeys_sorted _, sortKeys_nodup _ (hnodup.filter _), ?_, ?_,
    list_keys_length tbl o⟩
  · show (sortedMatching tbl p).take (jsOrNat none 1000) = _
    exact List.take_of_length_le hlen
  · rw [show sortedMatching tbl p =
      sortKeys ((tbl.map Prod.fst).filter (fun x => likeMatch (p ++ "%") x))
      from rfl]
    rw [(sortKeys_perm _).mem_iff, List.mem_filter]
  · show likeMatchL (p' ++ "%").data s.data = _
    rw [String.data_append]
    exact likeMatchL_no_meta p'.data hmeta s.data

/-- C4, witness. -/
theorem C4_witness :
    (list [("ab", "1")] { pfx := some "a" }).keys = sortedMatching [("ab", "1")] "a"
    ∧ (sortedMatching [("ab", "1")] "a").Pairwise keyLeP
    ∧ (sortedMatching [("ab", "1")] "a").Nodup
    ∧ ("ab" ∈ sortedMatching [("ab", "1")] "a" ↔
        "ab" ∈ [("ab", "1")].map Prod.fst
        ∧ likeMatch ("a" ++ "%") "ab" = true)
    ∧ likeMatch ("te" ++ "%") "test-1" = ciPrefixL "te".data "test-1".data
    ∧ (list [("ab", "1")] { limit := some 3 }).keys.length ≤
        jsOrNat (some 3) 1000 :=
  C4_list_prefix [("ab", "1")] "a" "te" "test-1" "ab" { limit := some 3 }
    (by decide) (by decide) (by decide)

/-! ### Pagination lemma kit -/

theorem jsOrNat_some {L : Nat} (hL : L ≠ 0) (d : Nat) :
    jsOrNat (some L) d = L := by
  simp [jsOrNat, hL]

theorem jsOrNat_pos (o : Option Nat) : 0 < jsOrNat o 1000 := by
  cases o with
  | none => exact Nat.succ_pos _
  | some n =>
    by_cases h : n = 0
    · simp [jsOrNat, h]
    · simp [jsOrNat, h]
      exact Nat.pos_of_ne_zero h

theorem list_complete_eq (tbl : KVTable) (o : KVListOptions) :
    (list tbl o).list_complete =
      !((list tbl o).keys.length == jsOrNat o.limit 1000) := by
  cases hc : jsTruthyCursor o.cursor <;> simp only [list, hc]

theorem list_cursor_eq (tbl : KVTable) (o : KVListOptions) :
    (list tbl o).cursor =
      if ((list tbl o).keys.length == jsOrNat o.limit 1000) &&
          decide (0 < (list tbl o).keys.length) then
        (list tbl o).keys.getLast?
      else none := by
  cases hc : jsTruthyCursor o.cursor <;> simp only [list, hc]

theorem sortKeys_filter (l : List String) (q : String → Bool) :
    sortKeys (l.filter q) = (sortKeys l).filter q := by
  refine List.eq_of_perm_of_sorted (r := keyLeP) ?_ ?_ ?_
  · exact (sortKeys_perm _).trans ((sortKeys_perm l).filter q).symm
  · exact sortKeys_sorted _
  · exact (sortKeys_sorted l).filter q

theorem list_page (tbl : KVTable) (p : String) (L : Nat)
    (cur : Option String) (hL : L ≠ 0)
    (hcur : ∀ c, cur = some c → c ≠ "") :
    (list tbl { pfx := some p, limit := some L, cursor := cur }).keys =
      (afterCursor (sortedMatching tbl p) cur).take L := by
  cases cur with
  | none =>
    simp only [list, jsTruthyCursor, jsOrNat_some hL]
    rfl
  | some c =>
    have hc : c ≠ "" := hcur c rfl
    have hct : jsTruthyCursor (some c) = some c := by
      simp [jsTruthyCursor, hc]
    simp only [list, hct, jsOrNat_some hL]
    show (sortKeys ((tbl.map Prod.fst).filter
      (fun k => likeMatch (jsOrStr (some p) ++ "%") k &&
        decide (keyLtP c k)))).take L = _
    rw [show afterCursor (sortedMatching tbl p) (some c) =
      (sortKeys ((tbl.map Prod.fst).filter
        (fun k => likeMatch (p ++ "%") k))).filter
        (fun k => decide (keyLtP c k)) from rfl]
    rw [← sortKeys_filter, List.filter_filter]
    rw [List.filter_congr (fun a _ => ?_)]
    exact Bool.and_comm _ _

theorem strictSorted_le_getLast (xs : List String) (hxs : xs.Pairwise keyLtP)
    (hne : xs ≠ []) : ∀ a ∈ xs, keyLeP a (xs.getLast hne) := by
  induction xs with
  | nil => cases hne rfl
  | cons x xs ih =>
    intro a ha
    cases xs with
    | nil =>
      have : a = x := by simpa using ha
      subst this
      exact le_refl _
    | cons y ys =>
      rcases List.mem_cons.mp ha with h | h
      · have hmem : (y :: ys).getLast (by simp) ∈ y :: ys :=
          List.getLast_mem _
        have hlt : keyLtP x ((y :: ys).getLast (by simp)) :=
          (List.pairwise_cons.mp hxs).1 _ hmem
        have hgl : (x :: y :: ys).getLast hne = (y :: ys).getLast (by simp) := by
          simp [List.getLast_cons]
        rw [hgl, h]
        exact le_of_lt hlt
      · have : (x :: y :: ys).getLast hne = (y :: ys).getLast (by simp) := by
          simp [List.getLast_cons]
        rw [this]
        exact ih (List.pairwise_cons.mp hxs).2 (by simp) a h

theorem filter_gt_getLast_eq_drop (S : List String)
    (hs : S.Pairwise keyLtP) (L : Nat) (hge : L ≤ S.length) (hL : L ≠ 0)
    (hne : S.take L ≠ []) :
    S.filter (fun k => decide (keyLtP ((S.take L).getLast hne) k)) =
      S.drop L := by
  set m := (S.take L).getLast hne with hm
  have hsplit : S.take L ++ S.drop L = S := List.take_append_drop L S
  have hsp : (S.take L ++ S.drop L).Pairwise keyLtP := by rw [hsplit]; exact hs
  rw [List.pairwise_append] at hsp
  obtain ⟨hxs, hys, hcross⟩ := hsp
  have hmmem : m ∈ S.take L := List.getLast_mem hne
  conv_lhs => rw [← hsplit]
  rw [List.filter_append]
  have h1 : (S.take L).filter (fun k => decide (keyLtP m k)) = [] := by
    rw [List.filter_eq_nil_iff]
    intro a ha
    have hle : keyLeP a m := strictSorted_le_getLast (S.take L) hxs hne a ha
    simp only [decide_eq_true_eq]
    exact not_lt_of_le hle
  have h2 : (S.drop L).filter (fun k => decide (keyLtP m k)) = S.drop L := by
    rw [List.filter_eq_self]
    intro b hb
    simp only [decide_eq_true_eq]
    exact hcross m hmmem b hb
  rw [h1, h2, List.nil_append]

theorem afterCursor_subset (M : List String) (cur : Option String) :
    ∀ x ∈ afterCursor M cur, x ∈ M := by
  cases cur with
  | none => exact fun x hx => hx
  | some c => exact fun x hx => (List.mem_filter.mp hx).1

theorem afterCursor_pairwise (M : List String) (cur : Option String)
    (h : M.Pairwise keyLtP) : (afterCursor M cur).Pairwise keyLtP := by
  cases cur with
  | none => exact h
  | some c => exact h.filter _

theorem afterCursor_next (M : List String) (cur : Option String) (m : String)
    (hm : m ∈ afterCursor M cur) :
    afterCursor M (some m) =
      (afterCursor M cur).filter (fun k => decide (keyLtP m k)) := by
  cases cur with
  | none => rfl
  | some c =>
    have hcm : keyLtP c m := of_decide_eq_true (List.mem_filter.mp hm).2
    show M.filter (fun k => decide (keyLtP m k)) =
      (M.filter (fun k => decide (keyLtP c k))).filter
        (fun k => decide (keyLtP m k))
    rw [List.filter_filter]
    refine List.filter_congr ?_
    intro a _
    cases hd : decide (keyLtP m a) with
    | false => rfl
    | true =>
      have hca : keyLtP c a := lt_trans hcm (of_decide_eq_true hd)
      simp [hca]

theorem paginate_succ (tbl : KVTable) (p : String) (L n : Nat)
    (cur : Option String) :
    paginate tbl p L (n + 1) cur =
      if (list tbl { pfx := some p, limit := some L, cursor := cur }).list_complete then
        ((list tbl { pfx := some p, limit := some L, cursor := cur }).keys, true)
      else
        ((list tbl { pfx := some p, limit := some L, cursor := cur }).keys ++
          (paginate tbl p L n (list tbl { pfx := some p, limit := some L, cursor := cur }).cursor).1,
         (paginate tbl p L n (list tbl { pfx := some p, limit := some L, cursor := cur }).cursor).2) :=
  rfl

theorem paginate_go (tbl : KVTable) (p : String) (L : Nat) (hL : L ≠ 0)
    (hstrict : (sortedMatching tbl p).Pairwise keyLtP)
    (hnoempty : "" ∉ sortedMatching tbl p) :
    ∀ (fuel : Nat) (cur : Option String),
      (∀ c, cur = some c → c ≠ "") →
      (afterCursor (sortedMatching tbl p) cur).length + 1 ≤ fuel →
      paginate tbl p L fuel cur =
        (afterCursor (sortedMatching tbl p) cur, true) := by
  intro fuel
  induction fuel with
  | zero => intro cur hcur hfuel; omega
  | succ n ih =>
    intro cur hcur hfuel
    have hkeys : (list tbl { pfx := some p, limit := some L, cursor := cur }).keys =
        (afterCursor (sortedMatching tbl p) cur).take L :=
      list_page tbl p L cur hL hcur
    have hcomplete := list_complete_eq tbl
      { pfx := some p, limit := some L, cursor := cur }
    by_cases hlt : (afterCursor (sortedMatching tbl p) cur).length < L
    · have htake : (afterCursor (sortedMatching tbl p) cur).take L =
          afterCursor (sortedMatching tbl p) cur :=
        List.take_of_length_le (le_of_lt hlt)
      have hcomp : (list tbl { pfx := some p, limit := some L, cursor := cur }).list_complete = true := by
        rw [hcomplete, hkeys, htake, jsOrNat_some hL]
        have hb : ((afterCursor (sortedMatching tbl p) cur).length == L) = false :=
          beq_eq_false_iff_ne.mpr (Nat.ne_of_lt hlt)
        rw [hb]
        rfl
      rw [paginate_succ, if_pos hcomp, hkeys, htake]
    · have hge : L ≤ (afterCursor (sortedMatching tbl p) cur).length :=
        le_of_not_lt hlt
      have hlen : ((afterCursor (sortedMatching tbl p) cur).take L).length = L := by
        rw [List.length_take]
        exact Nat.min_eq_left hge
      have hcomp : (list tbl { pfx := some p, limit := some L, cursor := cur }).list_complete = false := by
        rw [hcomplete, hkeys, hlen, jsOrNat_some hL]
        simp
      have hneTake : (afterCursor (sortedMatching tbl p) cur).take L ≠ [] := by
        intro h
        rw [h] at hlen
        exact hL hlen.symm
      have hcursor : (list tbl { pfx := some p, limit := some L, cursor := cur }).cursor =
          some (((afterCursor (sortedMatching tbl p) cur).take L).getLast hneTake) := by
        rw [list_cursor_eq, hkeys, hlen, jsOrNat_some hL]
        rw [if_pos (by simp [Nat.pos_of_ne_zero hL])]
        exact List.getLast?_eq_getLast _ hneTake
      have hmR : ((afterCursor (sortedMatching tbl p) cur).take L).getLast hneTake ∈
          afterCursor (sortedMatching tbl p) cur :=
        List.mem_of_mem_take (List.getLast_mem hneTake)
      have hmM : ((afterCursor (sortedMatching tbl p) cur).take L).getLast hneTake ∈
          sortedMatching tbl p :=
        afterCursor_subset _ cur _ hmR
      have hmne : ((afterCursor (sortedMatching tbl p) cur).take L).getLast hneTake ≠ "" :=
        fun h => hnoempty (h ▸ hmM)
      have hnext : afterCursor (sortedMatching tbl p)
          (some (((afterCursor (sortedMatching tbl p) cur).take L).getLast hneTake)) =
          (afterCursor (sortedMatching tbl p) cur).drop L := by
        rw [afterCursor_next _ cur _ hmR]
        exact filter_gt_getLast_eq_drop _
          (afterCursor_pairwise _ cur hstrict) L hge hL hneTake
      have hfuel' : (afterCursor (sortedMatching tbl p)
          (some (((afterCursor (sortedMatching tbl p) cur).take L).getLast hneTake))).length + 1 ≤ n := by
        rw [hnext, List.length_drop]
        have hpos := Nat.pos_of_ne_zero hL
        omega
      have hih := ih (some (((afterCursor (sortedMatching tbl p) cur).take L).getLast hneTake))
        (fun c hc => by cases hc; exact hmne) hfuel'
      rw [hnext] at hih
      rw [paginate_succ, if_neg (by simp [hcomp]), hkeys, hcursor, hih,
        List.take_append_drop]

/-- C5, counterexample: the empty string is a valid stored key, but an
empty-string cursor is falsy in JavaScript (`if (options?.cursor)`), so
a page that ends with the key `""` restarts the scan from the top: with
keys `""` and `"a"` and limit 1 every page is `[""]`, the pagination
never reaches a complete page, and the concatenation (here after four
pages) duplicates `""` instead of equalling the full key list. -/
theorem C5_counterexample :
    paginate [("", "v"), ("a", "w")] "" 1 4 none = (["", "", "", ""], false)
    ∧ sortedMatching [("", "v"), ("a", "w")] "" = ["", "a"]
    ∧ (["", "", "", ""] : List String) ≠ ["", "a"] := by
  exact ⟨by decide, by decide, by decide⟩

/-- C5 (amended): provided no stored key is the empty string, cursor
pagination with a fixed prefix and fixed positive limit, started with no
cursor and threading each page's cursor into the next call, terminates
in a complete page and concatenates to exactly the full sorted matching
key list (no duplicate, no gap, given enough iterations); every
incomplete page is exactly full (its key count equals the limit) and
carries the last returned key as its cursor, and the next call resumes
strictly after that key. -/
theorem C5_cursor_pagination (tbl : KVTable) (p : String) (L fuel : Nat)
    (o : KVListOptions)
    (hL : 0 < L)
    (hnodup : (tbl.map Prod.fst).Nodup)
    (hempty : "" ∉ tbl.map Prod.fst)
    (hfuel : (sortedMatching tbl p).length + 1 ≤ fuel) :
    paginate tbl p L fuel none = (sortedMatching tbl p, true)
    ∧ (sortedMatching tbl p).Nodup
    ∧ ((list tbl o).list_complete = false →
        (list tbl o).keys.length = jsOrNat o.limit 1000
        ∧ (list tbl o).cursor = (list tbl o).keys.getLast?) := by
  have hfilter_nodup : ((tbl.map Prod.fst).filter
      (fun k => likeMatch (p ++ "%") k)).Nodup := hnodup.filter _
  have hMnodup : (sortedMatching tbl p).Nodup := sortKeys_nodup _ hfilter_nodup
  have hstrict : (sortedMatching tbl p).Pairwise keyLtP :=
    sortKeys_strict _ hfilter_nodup
  have hnoempty : "" ∉ sortedMatching tbl p := by
    intro h
    unfold sortedMatching at h
    exact hempty (List.mem_filter.mp ((sortKeys_perm _).mem_iff.mp h)).1
  refine ⟨?_, hMnodup, ?_⟩
  · exact paginate_go tbl p L (Nat.pos_iff_ne_zero.mp hL) hstrict hnoempty
      fuel none (fun c hc => by cases hc) hfuel
  · intro hfalse
    have hcompl := list_complete_eq tbl o
    rw [hfalse] at hcompl
    have hb : ((list tbl o).keys.length == jsOrNat o.limit 1000) = true := by
      cases hbb : ((list tbl o).keys.length == jsOrNat o.limit 1000) with
      | true => rfl
      | false => rw [hbb] at hcompl; cases hcompl
    have hlen : (list tbl o).keys.length = jsOrNat o.limit 1000 :=
      beq_iff_eq.mp hb
    have hpos : 0 < (list tbl o).keys.length := by
      rw [hlen]
      exact jsOrNat_pos o.limit
    refine ⟨hlen, ?_⟩
    rw [list_cursor_eq tbl o, if_pos (by rw [hb]; simp [hpos])]

/-- C5, witness: three keys paged two at a time. -/
theorem C5_witness :
    paginate [("a", "1"), ("b", "2"), ("c", "3")] "" 2 4 none =
      (sortedMatching [("a", "1"), ("b", "2"), ("c", "3")] "", true)
    ∧ (sortedMatching [("a", "1"), ("b", "2"), ("c", "3")] "").Nodup
    ∧ ((list [("a", "1"), ("b", "2"), ("c", "3")] { limit := some 2 }).list_complete = false →
        (list [("a", "1"), ("b", "2"), ("c", "3")] { limit := some 2 }).keys.length =
          jsOrNat (some 2) 1000
        ∧ (list [("a", "1"), ("b", "2"), ("c", "3")] { limit := some 2 }).cursor =
            (list [("a", "1"), ("b", "2"), ("c", "3")] { limit := some 2 }).keys.getLast?) :=
  C5_cursor_pagination [("a", "1"), ("b", "2"), ("c", "3")] "" 2 4
    { limit := some 2 } (by decide) (by decide) (by decide) (by decide)
